import Mathlib

/-!
Verification development for the `discord-ppa` multi-source Debian APT
repository service.  Go byte strings are modelled as `List Char` (one `Char`
per byte); fallible Go functions return `Except String` or `Option`; the
object store, hash functions, gzip, and the GPG signer are abstracted as
explicit function parameters where the code treats them as black boxes.
-/

/-- A Go byte string: one `Char` per byte. -/
abbrev Bytes := List Char

/-- Embed a Lean string literal as a Go byte string. -/
def bs (s : String) : Bytes := s.toList

/-- The ASCII white-space set recognised by Go's `unicode.IsSpace`
(restricted to the ASCII range, which is all the code ever feeds it). -/
def isGoSpace (c : Char) : Bool :=
  c = ' ' || c = '\t' || c = '\n' || c = '\x0b' || c = '\x0c' || c = '\r'

/-- Go `strings.TrimLeft` with the white-space cutset (left half of `TrimSpace`). -/
def goTrimLeft (b : Bytes) : Bytes := b.dropWhile isGoSpace

/-- Go `strings.TrimRight` with the white-space cutset (right half of `TrimSpace`). -/
def goTrimRight (b : Bytes) : Bytes := (b.reverse.dropWhile isGoSpace).reverse

/-- Go `strings.TrimSpace` (ASCII fragment). -/
def goTrimSpace (b : Bytes) : Bytes := goTrimRight (goTrimLeft b)

/-- Go `strings.TrimRight(s, " ")`. -/
def goTrimRightSpaces (b : Bytes) : Bytes :=
  (b.reverse.dropWhile (fun c => c = ' ')).reverse

/-- Go `strings.TrimRight(s, "/ ")`. -/
def goTrimRightSlashSpace (b : Bytes) : Bytes :=
  (b.reverse.dropWhile (fun c => c = '/' || c = ' ')).reverse

/-- Go `strings.TrimPrefix`. -/
def goTrimPrefixOf (b pre : Bytes) : Bytes :=
  if pre.isPrefixOf b then b.drop pre.length else b

/-- Go `strings.HasSuffix`. -/
def goSuffix (b suf : Bytes) : Bool := suf.reverse.isPrefixOf b.reverse

/-- Go `strings.Contains` (substring containment). -/
def containsSub (hay needle : Bytes) : Bool :=
  needle.isPrefixOf hay ||
    match hay with
    | [] => false
    | _ :: t => containsSub t needle

/-- Go `strings.SplitN(line, ":", 2)`: the part before the first `':'` and the
part after it, or `none` when the line holds no `':'` (one-element split). -/
def splitFirstColon : Bytes → Option (Bytes × Bytes)
  | [] => none
  | c :: t =>
    if c = ':' then some ([], t)
    else (splitFirstColon t).map (fun p => (c :: p.1, p.2))

/-- Split a byte string at every `'\n'`; a string with `k` newlines yields
`k + 1` parts (the separators are dropped). -/
def splitOnNl : Bytes → List Bytes
  | [] => [[]]
  | c :: t =>
    if c = '\n' then [] :: splitOnNl t
    else
      match splitOnNl t with
      | [] => [[c]]
      | p :: ps => (c :: p) :: ps

/-- Go `bufio.ScanLines`' `dropCR`: strip one trailing `'\r'`. -/
def dropCR (b : Bytes) : Bytes :=
  if b.getLast? = some '\r' then b.dropLast else b

/-- Go `bufio.MaxScanTokenSize` = 64 KiB: the scanner's default buffer cap. -/
def maxScanTokenSize : Nat := 65536

/-- The token sequence produced by `bufio.Scanner` with `ScanLines`: split at
newlines and drop the trailing empty token produced by a final newline (or by
empty input).  The scanner buffers at most `MaxScanTokenSize` bytes while
looking for a newline, so the first split part of length ≥ 64 KiB makes
`Scan` fail with `ErrTooLong`: tokens stop just before that part (empty parts
are never over-long, so the cap commutes with the trailing-empty drop).
Finally one `'\r'` is stripped from each token's end. -/
def goScanLines (b : Bytes) : List Bytes :=
  let ps := splitOnNl b
  (((if ps.getLast? = some [] then ps.dropLast else ps).takeWhile
      (fun l => l.length < maxScanTokenSize)).map dropCR)

/-- ASCII decimal digit test. -/
def isDecDigit (c : Char) : Bool := '0' ≤ c && c ≤ '9'

/-- ASCII octal digit test. -/
def isOctDigit (c : Char) : Bool := '0' ≤ c && c ≤ '7'

/-- Numeric value of a digit string (most significant first). -/
def digitsVal (base : Nat) (b : Bytes) : Nat :=
  b.foldl (fun a c => a * base + (c.toNat - '0'.toNat)) 0

/-- Split an optional leading sign from a numeric literal, Go
`strconv.ParseInt` style: `(negative?, digits)`. -/
def splitSign : Bytes → Bool × Bytes
  | '+' :: t => (false, t)
  | '-' :: t => (true, t)
  | t => (false, t)

/-- Go `strconv.ParseInt(s, 10, 64)` as a partial function: `none` exactly
when Go reports an error (syntax error or 64-bit range overflow). -/
def goParseIntDec (b : Bytes) : Option Int :=
  let (neg, t) := splitSign b
  if t = [] || !t.all isDecDigit then none
  else
    let v : Nat := digitsVal 10 t
    if neg then
      if v ≤ 2 ^ 63 then some (-(v : Int)) else none
    else
      if v ≤ 2 ^ 63 - 1 then some (v : Int) else none

/-- Go `strconv.Atoi` (64-bit platform): identical to
`strconv.ParseInt(s, 10, 64)`. -/
def goAtoi (b : Bytes) : Option Int := goParseIntDec b

/-- The value Go's `strconv.ParseInt(s, 10, 64)` STORES when its error is
discarded: `0` on a syntax error, the clamped extremum on a range error. -/
def goParseIntDecLenient (b : Bytes) : Int :=
  let (neg, t) := splitSign b
  if t = [] || !t.all isDecDigit then 0
  else
    let v : Nat := digitsVal 10 t
    if neg then
      if v ≤ 2 ^ 63 then -(v : Int) else -(2 ^ 63 : Int)
    else
      if v ≤ 2 ^ 63 - 1 then (v : Int) else ((2 ^ 63 - 1 : Nat) : Int)

/-- The value Go's `strconv.ParseInt(s, 8, 64)` stores when its error is
discarded: `0` on a syntax error, the clamped extremum on a range error. -/
def goParseIntOctLenient (b : Bytes) : Int :=
  let (neg, t) := splitSign b
  if t = [] || !t.all isOctDigit then 0
  else
    let v : Nat := digitsVal 8 t
    if neg then
      if v ≤ 2 ^ 63 then -(v : Int) else -(2 ^ 63 : Int)
    else
      if v ≤ 2 ^ 63 - 1 then (v : Int) else ((2 ^ 63 - 1 : Nat) : Int)

/-- Render a `Nat` in decimal, as Go `fmt` `%d` does for non-negative values. -/
def natToBytes (n : Nat) : Bytes := Nat.toDigits 10 n

/-- Render an `Int` in decimal, as Go `fmt` `%d`. -/
def intToBytes (i : Int) : Bytes :=
  if i < 0 then '-' :: natToBytes i.natAbs else natToBytes i.toNat

/-- Render an `Int` in octal, as Go `fmt` `%o`. -/
def octToBytes (i : Int) : Bytes :=
  if i < 0 then '-' :: Nat.toDigits 8 i.natAbs else Nat.toDigits 8 i.toNat

/-- Byte-wise lexicographic `≤` on Go byte strings, the order used by Go's
`sort.Strings` and by `<` on `string`. -/
def bytesLe : Bytes → Bytes → Bool
  | [], _ => true
  | _ :: _, [] => false
  | a :: as, b :: bs' =>
    if a < b then true
    else if b < a then false
    else bytesLe as bs'

/-- The propositional form of `bytesLe`. -/
def BytesLe (a b : Bytes) : Prop := bytesLe a b = true

instance : DecidableRel BytesLe := fun a b => by
  unfold BytesLe; infer_instance

/-- Decidable equality for `Except`, used to evaluate parser results. -/
instance {e a : Type} [DecidableEq e] [DecidableEq a] : DecidableEq (Except e a)
  | .error x, .error y =>
    if h : x = y then isTrue (h ▸ rfl) else isFalse (fun c => h (Except.noConfusion c id))
  | .error _, .ok _ => isFalse (fun c => Except.noConfusion c)
  | .ok _, .error _ => isFalse (fun c => Except.noConfusion c)
  | .ok x, .ok y =>
    if h : x = y then isTrue (h ▸ rfl) else isFalse (fun c => h (Except.noConfusion c id))

/-! ## Debian control records (`deb.go`) -/

/-- One ordered control field, `deb.go` `ControlField`. -/
structure ControlField where
  key : Bytes
  value : Bytes
deriving DecidableEq, Repr

/-- Go `deb.go` `DebControl`: the ordered field list plus the convenience
extractions kept up to date by `flush`. -/
structure DebControl where
  Package : Bytes := []
  Version : Bytes := []
  Architecture : Bytes := []
  Maintainer : Bytes := []
  Description : Bytes := []
  Depends : Bytes := []
  Section : Bytes := []
  Priority : Bytes := []
  Fields : List ControlField := []
deriving DecidableEq, Repr

/-- The `flush` closure of `parseControlFile`: append the pending
`(currentKey, currentValue)` pair (unless the key is empty), trimming the
accumulated value, and update the convenience extraction that matches the
key. -/
def ctrlFlush (key value : Bytes) (ctrl : DebControl) : DebControl :=
  if key = [] then ctrl
  else
    let v := goTrimSpace value
    let ctrl := { ctrl with Fields := ctrl.Fields ++ [⟨key, v⟩] }
    if key = bs "Package" then { ctrl with Package := v }
    else if key = bs "Version" then { ctrl with Version := v }
    else if key = bs "Architecture" then { ctrl with Architecture := v }
    else if key = bs "Maintainer" then { ctrl with Maintainer := v }
    else if key = bs "Description" then { ctrl with Description := v }
    else if key = bs "Depends" then { ctrl with Depends := v }
    else if key = bs "Section" then { ctrl with Section := v }
    else if key = bs "Priority" then { ctrl with Priority := v }
    else ctrl

/-- The scanner loop of `parseControlFile` over the token list, carrying
`currentKey`, `currentValue` and the record built so far.  A blank line
breaks; a line starting with space or tab extends the current value with a
`'\n'` plus the line verbatim; otherwise the pending field is flushed and the
line is split at its first `':'` (a colonless line is skipped, leaving
`currentKey`/`currentValue` untouched, exactly as in the Go closure). -/
def parseCtrlLines : List Bytes → Bytes → Bytes → DebControl → DebControl
  | [], k, v, ctrl => ctrlFlush k v ctrl
  | line :: rest, k, v, ctrl =>
    if line = [] then ctrlFlush k v ctrl
    else if line.head? = some ' ' || line.head? = some '\t' then
      parseCtrlLines rest k (v ++ '\n' :: line) ctrl
    else
      let ctrl' := ctrlFlush k v ctrl
      match splitFirstColon line with
      | none => parseCtrlLines rest k v ctrl'
      | some (k', v') =>
        parseCtrlLines rest (goTrimSpace k') (goTrimSpace v') ctrl'

/-- Go `deb.go` `parseControlFile`: scan the member's bytes line by line and
reject a record with an empty `Package`.  The Go code never checks
`scanner.Err()`, so when a line reaches the scanner's 64 KiB cap the token
stream (`goScanLines`) simply ends there and every field from that line on is
silently dropped. -/
def parseControlFile (content : Bytes) : Except String DebControl :=
  let ctrl := parseCtrlLines (goScanLines content) [] [] {}
  if ctrl.Package = [] then .error "Package field not found in control file"
  else .ok ctrl

/-- One member of a tar archive: `(name, contents)`.  The tar encoding and
decoding performed by Go's `archive/tar` are modelled as this structured
container (encode and decode are mutually inverse on it). -/
abbrev TarMember := Bytes × Bytes

/-- Payload of one ar member as the deb codec sees it: raw bytes, a plain tar
stream, or a gzipped tar stream.  `compress/gzip` + `archive/tar` transport is
modelled structurally: wrapping and unwrapping are inverse. -/
inductive ArMemberData where
  | raw (b : Bytes)
  | tarArc (members : List TarMember)
  | tgzArc (members : List TarMember)
deriving DecidableEq, Repr

/-- One member of an ar archive at the structural level. -/
structure ArMember where
  name : Bytes
  data : ArMemberData
deriving DecidableEq, Repr

/-- A `.deb` at the structural level: the ordered ar member list. -/
structure DebArchive where
  members : List ArMember
deriving DecidableEq, Repr

/-- Go `deb.go` `parseControlTar`: pick the decoder by the member name's suffix
(`.gz` must be a gzip stream; `.xz`/`.zst` are rejected; anything else is
plain tar), then walk the tar for the member named `control` after stripping
a leading `./`. -/
def parseControlTar (data : ArMemberData) (name : Bytes) : Except String DebControl :=
  let members? : Except String (List TarMember) :=
    if goSuffix name (bs ".gz") then
      match data with
      | .tgzArc ms => .ok ms
      | _ => .error "opening gzip"
    else if goSuffix name (bs ".xz") || goSuffix name (bs ".zst") then
      .error "compression not supported"
    else
      match data with
      | .tarArc ms => .ok ms
      | _ => .error "reading control tar"
  match members? with
  | .error e => .error e
  | .ok ms =>
    match ms.find? (fun m => goTrimPrefixOf m.1 (bs "./") = bs "control") with
    | some m => parseControlFile m.2
    | none => .error "control file not found in control.tar"

/-- Go `deb.go` `ParseDebControl`: scan the ar members for the first whose name,
after `strings.TrimRight(name, "/ ")`, starts with `control.tar`, and parse
it.  -/
def ParseDebControl (d : DebArchive) : Except String DebControl :=
  match d.members.find?
      (fun m => (bs "control.tar").isPrefixOf (goTrimRightSlashSpace m.name)) with
  | some m => parseControlTar m.data (goTrimRightSlashSpace m.name)
  | none => .error "control.tar not found in .deb"

/-! ## Deb builder (`deb_build.go`) -/

/-- Go `deb_build.go` `DebEntry`. -/
structure DebEntry where
  path : Bytes
  body : Bytes := []
  mode : Int := 0
  isDir : Bool := false
  linkTarget : Bytes := []
deriving DecidableEq, Repr

/-- Render the control fields as `Key: Value\n` lines in stored order
(the body of `buildControlTar`'s `controlContent` buffer). -/
def renderControlFields (fields : List ControlField) : Bytes :=
  (fields.map (fun f => f.key ++ ':' :: ' ' :: f.value ++ ['\n'])).flatten

/-- Go `deb_build.go` `buildControlTar`: a gzipped tar with the single regular
member `./control`. -/
def buildControlTar (ctrl : DebControl) : ArMemberData :=
  .tgzArc [(bs "./control", renderControlFields ctrl.Fields)]

/-- Path ordering used by `buildDataTar`'s `sort.Slice` (`Path <` byte-wise),
as a non-strict relation for the sort model. -/
def entryPathLe (a b : DebEntry) : Prop := BytesLe a.path b.path

instance : DecidableRel entryPathLe := fun a b => by
  unfold entryPathLe; infer_instance

/-- The tar member `buildDataTar` emits for one entry.  `e.Path[0]` panics on
an empty path, modelled as `none`. -/
def dataTarMember (e : DebEntry) : Option TarMember :=
  match e.path with
  | [] => none
  | c :: _ =>
    let path := if c = '/' then '.' :: e.path else bs "./" ++ e.path
    if e.isDir then some (path ++ ['/'], [])
    else if e.linkTarget ≠ [] then some (path, [])
    else some (path, e.body)

/-- Emit the tar members of a sorted entry list in order; `none` as soon as
one entry panics (empty path). -/
def dataTarMembers : List DebEntry → Option (List TarMember)
  | [] => some []
  | e :: t => (dataTarMember e).bind (fun m => (dataTarMembers t).map (fun ms => m :: ms))

/-- Go `deb_build.go` `buildDataTar`: sort entries by path ascending, then emit
one tar member per entry (gzipped). -/
def buildDataTar (entries : List DebEntry) : Option ArMemberData :=
  (dataTarMembers (entries.insertionSort entryPathLe)).map .tgzArc

/-- Go `deb_build.go` `BuildDeb`: the three-member ar archive
`debian-binary`, `control.tar.gz`, `data.tar.gz`.  `none` models the
`e.Path[0]` panic on an empty entry path. -/
def BuildDeb (ctrl : DebControl) (entries : List DebEntry) : Option DebArchive :=
  (buildDataTar entries).map (fun dataTar =>
    ⟨[⟨bs "debian-binary", .raw (bs "2.0\n")⟩,
      ⟨bs "control.tar.gz", buildControlTar ctrl⟩,
      ⟨bs "data.tar.gz", dataTar⟩]⟩)

/-! ## `ar` byte-level codec (`ar.go`) -/

/-- Go `ar.go` `arHeader` (ModTime as Unix seconds). -/
structure ArHeaderRec where
  name : Bytes
  modTime : Int
  size : Int
  mode : Int
deriving DecidableEq, Repr

/-- Go `ar.go` `arReader`: the unread input plus the bytes left in the current
entry and the pending pad byte. -/
structure ArRdr where
  input : Bytes
  remaining : Int
  pad : Int
deriving DecidableEq, Repr

/-- Go `ar.go` `newArReader`: consume and check the 8-byte global magic. -/
def newArReader (b : Bytes) : Except String ArRdr :=
  if b.length < 8 then .error "reading ar global header"
  else if b.take 8 = bs "!<arch>\n" then .ok ⟨b.drop 8, 0, 0⟩
  else .error "not an ar archive"

/-- Go `ar.go` `arReader.next`: skip the rest of the current entry plus its pad
byte, read and validate a 60-byte header, parse its fields.  The size field
must parse (`strconv.ParseInt`, error checked); the modtime and mode fields
are parsed with the error discarded, so an unparsable value silently becomes
`0` (or a clamped extremum on range overflow), and an all-blank field is
skipped leaving `0`. -/
def arNext (st : ArRdr) : Except String (ArHeaderRec × ArRdr) :=
  let skipN := (st.remaining + st.pad).toNat
  if st.input.length < skipN then .error "reading ar archive"
  else
    let inp := st.input.drop skipN
    if inp.length < 60 then .error "reading ar entry header"
    else
      let buf := inp.take 60
      if buf.drop 58 ≠ bs "`\n" then .error "invalid ar entry header magic"
      else
        let name := goTrimRightSpaces (buf.take 16)
        match goParseIntDec (goTrimSpace ((buf.drop 48).take 10)) with
        | none => .error "parsing ar entry size"
        | some size =>
          let modTime :=
            let s := goTrimSpace ((buf.drop 16).take 12)
            if s = [] then 0 else goParseIntDecLenient s
          let mode :=
            let s := goTrimSpace ((buf.drop 40).take 8)
            if s = [] then 0 else goParseIntOctLenient s
          let pad : Int := if Int.tmod size 2 = 1 then 1 else 0
          .ok (⟨name, modTime, size, mode⟩, ⟨inp.drop 60, size, pad⟩)

/-- Go's `copy(buf[start:start+width], src)` on a byte slice `buf`: write
`min width src.length` bytes of `src` at offset `start`, leaving the rest of
`buf` unchanged. -/
def goCopyAt (buf : Bytes) (start width : Nat) (src : Bytes) : Bytes :=
  buf.take start ++ src.take (min width src.length)
    ++ buf.drop (start + min width src.length)

/-- Go `fmt.Sprintf` with a `%-Ns` / `%-Nd` / `%-No` verb applied to an
already-rendered value: left-justify, padding on the right with spaces up to
the width (a longer value is kept whole). -/
def sprintfLeftAlign (s : Bytes) (w : Nat) : Bytes :=
  s ++ List.replicate (w - s.length) ' '

/-- The ASCII backquote byte used by the ar entry-header trailer. -/
def backquote : Char := (bs "`").headI

/-- Go `ar.go` `arWriter.writeEntry`: fill a 60-byte space buffer field by
field, append the data, and append one `'\n'` pad byte when the data length
is odd.  (The writer's output bytes; the underlying `io.Writer` is the
concatenation of these.) -/
def writeEntry (h : ArHeaderRec) (data : Bytes) : Bytes :=
  let buf := List.replicate 60 ' '
  let buf := goCopyAt buf 0 16 (sprintfLeftAlign h.name 16)
  let buf := goCopyAt buf 16 12 (sprintfLeftAlign (intToBytes h.modTime) 12)
  let buf := goCopyAt buf 28 6 (sprintfLeftAlign (bs "0") 6)
  let buf := goCopyAt buf 34 6 (sprintfLeftAlign (bs "0") 6)
  let buf := goCopyAt buf 40 8 (sprintfLeftAlign (octToBytes h.mode) 8)
  let buf := goCopyAt buf 48 10 (sprintfLeftAlign (natToBytes data.length) 10)
  let buf := (buf.set 58 backquote).set 59 '\n'
  buf ++ data ++ (if data.length % 2 = 1 then ['\n'] else [])

/-- Right-pad with spaces to exactly `w` bytes, truncating a longer value:
the effect of `copy(buf[a:a+w], fmt.Sprintf("%-ws", s))`. -/
def padTrunc (s : Bytes) (w : Nat) : Bytes :=
  (s ++ List.replicate (w - s.length) ' ').take w

/-! ## Metadata formatter (`metadata.go`) -/

/-- Go `metadata.go` `PackageInfo`. -/
structure PackageInfo where
  Control : DebControl
  Filename : Bytes
  Size : Nat
  MD5 : Bytes
  SHA1 : Bytes
  SHA256 : Bytes
deriving DecidableEq, Repr

/-- The stanza `GeneratePackagesFile` renders for one package: the stored
control fields as `Key: Value\n`, then `Filename`, `Size`, `MD5sum`, `SHA1`,
`SHA256`, then the terminating blank line. -/
def packageStanza (pkg : PackageInfo) : Bytes :=
  (pkg.Control.Fields.map (fun f => f.key ++ ':' :: ' ' :: f.value ++ ['\n'])).flatten
    ++ bs "Filename: " ++ pkg.Filename ++ ['\n']
    ++ bs "Size: " ++ natToBytes pkg.Size ++ ['\n']
    ++ bs "MD5sum: " ++ pkg.MD5 ++ ['\n']
    ++ bs "SHA1: " ++ pkg.SHA1 ++ ['\n']
    ++ bs "SHA256: " ++ pkg.SHA256 ++ ['\n']
    ++ ['\n']

/-- Go `metadata.go` `GeneratePackagesFile`: the loop with its `if i > 0`
separator, written as structural recursion (the separator precedes every
stanza but the first). -/
def GeneratePackagesFile (packages : List PackageInfo) : Bytes :=
  match packages with
  | [] => []
  | pkg :: rest => packageStanza pkg ++ (rest.map (fun p => '\n' :: packageStanza p)).flatten

/-- Go `metadata.go` `FileHash`. -/
structure FileHash where
  Path : Bytes
  Size : Nat
  MD5 : Bytes
  SHA1 : Bytes
  SHA256 : Bytes
deriving DecidableEq, Repr

/-- The external capabilities `regenerateRepoMetadata` composes: the MD5,
SHA-1 and SHA-256 digest functions, gzip, the GPG signer, and the
configuration strings (`cfg.Origin`, `cfg.Label`) plus the `time.Now` RFC
1123 date stamp.  All are opaque byte-string functions to the code under
verification. -/
structure RegenEnv where
  md5 : Bytes → Bytes
  sha1 : Bytes → Bytes
  sha256 : Bytes → Bytes
  gzip : Bytes → Bytes
  clearSign : Bytes → Bytes
  detachSign : Bytes → Bytes
  publicKey : Bytes
  origin : Bytes
  label : Bytes
  date : Bytes

/-- Go `metadata.go` `ComputeFileHash` (path left empty, set by the caller). -/
def ComputeFileHash (env : RegenEnv) (data : Bytes) : FileHash :=
  ⟨[], data.length, env.md5 data, env.sha1 data, env.sha256 data⟩

/-- Go `metadata.go` `GenerateReleaseFile`, with the `Origin`/`Label` values and
the `Date` stamp taken from the caller's configuration and clock as in
`ppa.go`'s call site: the fixed header block followed by the `MD5Sum:`,
`SHA1:` and `SHA256:` sections, one `" <hex> <size> <path>"` line per file
hash record in each. -/
def GenerateReleaseFile (env : RegenEnv) (files : List FileHash) : Bytes :=
  bs "Origin: " ++ env.origin ++ ['\n']
    ++ bs "Label: " ++ env.label ++ ['\n']
    ++ bs "Suite: stable\n"
    ++ bs "Codename: stable\n"
    ++ bs "Architectures: amd64\n"
    ++ bs "Components: main\n"
    ++ bs "Date: " ++ env.date ++ ['\n']
    ++ bs "MD5Sum:\n"
    ++ (files.map (fun f => ' ' :: f.MD5 ++ ' ' :: natToBytes f.Size ++ ' ' :: f.Path ++ ['\n'])).flatten
    ++ bs "SHA1:\n"
    ++ (files.map (fun f => ' ' :: f.SHA1 ++ ' ' :: natToBytes f.Size ++ ' ' :: f.Path ++ ['\n'])).flatten
    ++ bs "SHA256:\n"
    ++ (files.map (fun f => ' ' :: f.SHA256 ++ ' ' :: natToBytes f.Size ++ ' ' :: f.Path ++ ['\n'])).flatten

/-! ## Regeneration procedure (`ppa.go` `regenerateRepoMetadata`) -/

/-- The fragment-collection loop of `regenerateRepoMetadata`: walk the listed
keys in order, keep those ending in `/packages-entry`, skip fragments whose
download fails (`dl k = none`) and fragments of zero length. -/
def collectEntries (keys : List Bytes) (dl : Bytes → Option Bytes) : List Bytes :=
  match keys with
  | [] => []
  | k :: rest =>
    if goSuffix k (bs "/packages-entry") then
      match dl k with
      | some d => if d.length > 0 then d :: collectEntries rest dl else collectEntries rest dl
      | none => collectEntries rest dl
    else collectEntries rest dl

/-- The result of one completed regeneration: the six computed objects and
the upload list (key, bytes).  The Go code uploads from a map, so upload
order is unspecified; the list here records contents keyed canonically. -/
structure RegenResult where
  packagesData : Bytes
  packagesGz : Bytes
  releaseData : Bytes
  inRelease : Bytes
  releaseGpg : Bytes
  uploads : List (Bytes × Bytes)

/-- Go `ppa.go` `regenerateRepoMetadata`, given the listed keys under `meta/`
and the download function: collect fragments, sort ascending, concatenate,
gzip, hash both, render and sign `Release`, and upload the six objects. -/
def regenerateRepoMetadata (env : RegenEnv) (keys : List Bytes)
    (dl : Bytes → Option Bytes) : RegenResult :=
  let allEntries := (collectEntries keys dl).insertionSort BytesLe
  let packagesData := allEntries.flatten
  let packagesGz := env.gzip packagesData
  let pkgHash := { ComputeFileHash env packagesData with Path := bs "main/binary-amd64/Packages" }
  let gzHash := { ComputeFileHash env packagesGz with Path := bs "main/binary-amd64/Packages.gz" }
  let releaseData := GenerateReleaseFile env [pkgHash, gzHash]
  let inRelease := env.clearSign releaseData
  let releaseGpg := env.detachSign releaseData
  { packagesData := packagesData
    packagesGz := packagesGz
    releaseData := releaseData
    inRelease := inRelease
    releaseGpg := releaseGpg
    uploads := [
      (bs "dists/stable/main/binary-amd64/Packages", packagesData),
      (bs "dists/stable/main/binary-amd64/Packages.gz", packagesGz),
      (bs "dists/stable/Release", releaseData),
      (bs "dists/stable/InRelease", inRelease),
      (bs "dists/stable/Release.gpg", releaseGpg),
      (bs "key.gpg", env.publicKey)] }

/-! ## Ingest path (`ppa.go` `processNewDeb`) -/

/-- Go `ppa.go` `maxDebSize` = 512 MiB. -/
def maxDebSize : Nat := 512 * 1024 * 1024

/-- Go `ppa.go` `safeDebField`: the anchored regular expression
`[a-zA-Z0-9][a-zA-Z0-9.+~:\-]*` as a decidable predicate. -/
def safeDebField (b : Bytes) : Bool :=
  match b with
  | [] => false
  | c :: rest =>
    (c.isAlpha || c.isDigit) &&
      rest.all (fun d => d.isAlpha || d.isDigit || d = '.' || d = '+' || d = '~' || d = ':' || d = '-')

/-- One store write performed by the ingest path: `(key, bytes, contentType)`. -/
structure StoreOp where
  key : Bytes
  data : Bytes
  contentType : Bytes
deriving DecidableEq, Repr

/-- The external collaborators of `processNewDeb`: the byte-level `.deb`
parser (the structural codec above works on decoded archives, so the raw
parse is an oracle parameter), the digest functions, the store's response to
each upload, and the outcome of the locked regeneration (with the store
writes it performs). -/
structure IngestEnv where
  parse : Bytes → Except String DebControl
  md5 : Bytes → Bytes
  sha1 : Bytes → Bytes
  sha256 : Bytes → Bytes
  uploadOk : Bytes → Bool
  regen : Except String (List StoreOp)

/-- Go `ppa.go` `processNewDeb` as a store-write trace: the ordered list of
store writes performed (attempted uploads count as writes) and the returned
error, if any.  Mirrors the code line by line: size guard, parse,
name/version sanitation, pool upload, per-source fragment upload, locked
regeneration, then the state upload iff the new state is non-empty. -/
def processNewDeb (env : IngestEnv) (sourceName state debData : Bytes) :
    List StoreOp × Except String Unit :=
  if debData.length > maxDebSize then
    ([], .error ".deb exceeds maximum size")
  else
    match env.parse debData with
    | .error e => ([], .error ("parsing .deb: " ++ e))
    | .ok ctrl =>
      if !(safeDebField ctrl.Package && safeDebField ctrl.Version) then
        ([], .error "invalid package name or version")
      else
        let filename := bs "pool/" ++ ctrl.Package.take 1 ++ '/' :: ctrl.Package
          ++ '/' :: ctrl.Package ++ '-' :: ctrl.Version ++ bs ".deb"
        let poolOp : StoreOp := ⟨filename, debData, bs "application/vnd.debian.binary-package"⟩
        if !env.uploadOk filename then ([poolOp], .error "uploading .deb")
        else
          let pkgInfo : PackageInfo :=
            { Control := ctrl, Filename := filename, Size := debData.length,
              MD5 := env.md5 debData, SHA1 := env.sha1 debData, SHA256 := env.sha256 debData }
          let packagesEntry := GeneratePackagesFile [pkgInfo]
          let entryKey := bs "meta/" ++ sourceName ++ bs "/packages-entry"
          let entryOp : StoreOp := ⟨entryKey, packagesEntry, bs "text/plain"⟩
          if !env.uploadOk entryKey then ([poolOp, entryOp], .error "uploading packages entry")
          else
            match env.regen with
            | .error e => ([poolOp, entryOp], .error ("regenerating repo metadata: " ++ e))
            | .ok regenOps =>
              if state ≠ [] then
                let stateKey := bs "meta/" ++ sourceName ++ bs "/state"
                let stateOp : StoreOp := ⟨stateKey, state, bs "text/plain"⟩
                if !env.uploadOk stateKey then
                  ([poolOp, entryOp] ++ regenOps ++ [stateOp], .error "updating state")
                else
                  ([poolOp, entryOp] ++ regenOps ++ [stateOp], .ok ())
              else
                ([poolOp, entryOp] ++ regenOps, .ok ())

/-! ## Poll cycle (`ppa.go` `poll`) -/

/-- What one poll cycle decides to do after `Check` and the state download. -/
inductive PollOutcome where
  | checkFailed
  | skipNoChange
  | fetch (state : Bytes)
deriving DecidableEq, Repr

/-- The decision logic of `ppa.go` `poll`: on `Check` error, skip; otherwise
download `meta/<name>/state` and skip only when the download SUCCEEDED, the
stored state equals the checked state byte for byte, and the state is
non-empty; in every other case proceed to `Fetch`. -/
def pollDecision (checkRes : Option Bytes) (stored : Option Bytes) : PollOutcome :=
  match checkRes with
  | none => .checkFailed
  | some state =>
    match stored with
    | some lastState =>
      if lastState = state ∧ state ≠ [] then .skipNoChange else .fetch state
    | none => .fetch state

/-! ## HTTP read path (`server.go` `handleProxy`) -/

/-- Go `server.go` `handleProxy` as status plus the list of object-store lookups
performed: strip one leading `/`, reject paths containing `..` with 400 and
no store call, otherwise fetch the key (404 on miss, 200 on hit). -/
def handleProxy (path : Bytes) (store : Bytes → Option Bytes) : Nat × List Bytes :=
  let key := goTrimPrefixOf path (bs "/")
  if containsSub key (bs "..") then (400, [])
  else
    match store key with
    | none => (404, [key])
    | some _ => (200, [key])

/-! ## Rate-limited HTTP helper (`http.go` `HTTPWithRetry`) -/

/-- The part of an HTTP response `HTTPWithRetry` inspects: the status code
and the `Retry-After` header value (`[]` when the header is absent, as Go's
`Header.Get` returns `""`). -/
structure HttpResp where
  status : Nat
  retryAfter : Bytes
deriving DecidableEq, Repr

/-- The wait `HTTPWithRetry` computes before retrying attempt `attempt`, in
seconds: `30·2^attempt`, overridden by a non-empty `Retry-After` header that
`strconv.Atoi` accepts with a positive value, clamped to 3600. -/
def retryWait (attempt : Nat) (ra : Bytes) : Nat :=
  let w := 30 * 2 ^ attempt
  if ra ≠ [] then
    match goAtoi ra with
    | some secs => if secs > 0 then (min secs 3600).toNat else w
    | none => w
  else w

/-- The observable outcome of `HTTPWithRetry`: the sequence of backoff waits
(seconds) and either a returned response or an error string. -/
structure RetryOutcome where
  waits : List Nat
  result : Except String HttpResp
deriving DecidableEq, Repr

/-- The retry loop of `HTTPWithRetry`, one step per attempt (`resp i` is what
the `i`-th `HTTPClient.Do` yields: a response or a transport error).
Context cancellation during the wait is not modelled; the claim under
verification does not concern it. -/
def httpRetryAux (resp : Nat → Except String HttpResp) :
    Nat → Nat → List Nat → RetryOutcome
  | 0, _, acc => ⟨acc, .error "rate limited after 3 retries"⟩
  | fuel + 1, attempt, acc =>
    match resp attempt with
    | .error e => ⟨acc, .error e⟩
    | .ok r =>
      if r.status ≠ 429 then ⟨acc, .ok r⟩
      else httpRetryAux resp fuel (attempt + 1) (acc ++ [retryWait attempt r.retryAfter])

/-- Go `http.go` `HTTPWithRetry`: three total attempts starting at attempt 0. -/
def HTTPWithRetry (resp : Nat → Except String HttpResp) : RetryOutcome :=
  httpRetryAux resp 3 0 []

/-- An ingest environment with all collaborators trivial, for witnesses. -/
def trivialIngestEnv : IngestEnv :=
  { parse := fun _ => .error "x", md5 := id, sha1 := id, sha256 := id,
    uploadOk := fun _ => true, regen := .ok [] }

/-- The backoff in the claim's words: `30·2^attempt` seconds, except that a
`Retry-After` value parsing as a positive integer `n` means `min(n, 3600)`
seconds; a non-numeric or non-positive value is ignored.  (Spec-side
comparator for the refinement statement below.) -/
def claimedBackoff (attempt : Nat) (ra : Bytes) : Nat :=
  match goAtoi ra with
  | some n => if 0 < n then min n.toNat 3600 else 30 * 2 ^ attempt
  | none => 30 * 2 ^ attempt

/-- A syntactically valid 60-byte ar header whose mode field (`zz`) does not
parse as a number, with size `4`. -/
def badModeHeader : Bytes :=
  padTrunc (bs "x") 16 ++ padTrunc (bs "0") 12 ++ padTrunc (bs "0") 6 ++ padTrunc (bs "0") 6
    ++ padTrunc (bs "zz") 8 ++ padTrunc (bs "4") 10 ++ bs "`\n"

/-- Well-formedness of a control field key for exact round-tripping: nonempty,
free of `':'`, newline and CR, and trim-fixed. -/
def WFKey (k : Bytes) : Prop :=
  k ≠ [] ∧ ':' ∉ k ∧ '\n' ∉ k ∧ '\r' ∉ k ∧ goTrimSpace k = k

/-- Well-formedness of a control field value for exact round-tripping: free of
CR, trim-fixed as a whole, with a right-trim-fixed first line and every
continuation line starting with space or tab. -/
def WFValue (v : Bytes) : Prop :=
  '\r' ∉ v ∧ goTrimSpace v = v
    ∧ goTrimRight (splitOnNl v).headI = (splitOnNl v).headI
    ∧ ∀ l ∈ (splitOnNl v).tail, l.head? = some ' ' ∨ l.head? = some '\t'

/-- Well-formed control field: well-formed key and value, and every rendered
line short enough for the scanner's 64 KiB token cap — the first rendered
line is `key ++ ": " ++ first value line`, the rest are the value's
continuation lines. -/
def WFField (f : ControlField) : Prop :=
  WFKey f.key ∧ WFValue f.value
    ∧ f.key.length + 2 + (splitOnNl f.value).headI.length < maxScanTokenSize
    ∧ ∀ l ∈ (splitOnNl f.value).tail, l.length < maxScanTokenSize

instance (k : Bytes) : Decidable (WFKey k) := by
  unfold WFKey
  infer_instance

instance (v : Bytes) : Decidable (WFValue v) := by
  unfold WFValue
  infer_instance

instance (f : ControlField) : Decidable (WFField f) := by
  unfold WFField
  infer_instance

/-- The rendered line block of one control field, without its final newline. -/
def bodyOf (f : ControlField) : Bytes := f.key ++ ':' :: ' ' :: f.value

/-- The control record built by folding the flush from the empty record: the
parse result of a rendered well-formed field list. -/
def mkParsedCtrl (fields : List ControlField) : DebControl :=
  fields.foldl (fun c f => ctrlFlush f.key f.value c) {}

/-- A control record with a non-empty `Package` field whose value carries a
trailing space — legal input to `BuildDeb`, not exactly round-trippable. -/
def trailingSpaceCtrl : DebControl :=
  { Package := bs "a", Fields := [⟨bs "Package", bs "a "⟩] }

/-- A well-formed sample control record. -/
def wfSampleCtrl : DebControl :=
  { Package := bs "discord",
    Fields := [⟨bs "Package", bs "discord"⟩, ⟨bs "Version", bs "1.2.3"⟩] }

example : bs "" = [] := by decide

example : goScanLines (bs "a\nb\n") = [bs "a", bs "b"] := by decide

example : goScanLines (bs "a\r\nb") = [bs "a", bs "b"] := by decide

example : goParseIntDec (bs "-42") = some (-42) := by decide

example : goParseIntDec (bs "4z") = none := by decide

example : goParseIntOctLenient (bs "zz") = 0 := by decide

example : containsSub (bs "dists/../x") (bs "..") = true := by decide

example : splitFirstColon (bs "Key: Value") = some (bs "Key", bs " Value") := by decide

example :
    (BuildDeb { Package := bs "a", Fields := [⟨bs "Package", bs "a"⟩] } []).map
      (fun d => (ParseDebControl d).map DebControl.Fields)
      = some (.ok [⟨bs "Package", bs "a"⟩]) := by decide

example :
    writeEntry ⟨bs "debian-binary", 0, 0, 33188⟩ (bs "2.0\n")
      = bs "debian-binary   0           0     0     100644  4         " ++
        bs "`\n2.0\n" := by decide

example :
    HTTPWithRetry (fun _ => .ok ⟨429, bs "120"⟩)
      = ⟨[120, 120, 120], .error "rate limited after 3 retries"⟩ := by decide

example :
    HTTPWithRetry (fun i => if i = 0 then .ok ⟨429, []⟩ else .ok ⟨200, []⟩)
      = ⟨[30], .ok ⟨200, []⟩⟩ := by decide

example : retryWait 2 (bs "-7") = 120 := by decide

example : retryWait 1 (bs "9999") = 3600 := by decide

/-! ## Claim theorems -/

/-- C10: in every poll cycle whose state download fails, the skip branch is
never taken: the cycle proceeds to `Fetch` whatever state `Check` returned,
including a state byte-equal to one persisted earlier. -/
theorem poll_fetches_when_state_download_fails (state : Bytes) :
    pollDecision (some state) none = .fetch state := rfl

/-- C5: an input byte slab longer than 512 MiB is rejected with the oversize
error before any store write: the write trace is empty, so no pool object,
fragment, metadata or state object is uploaded and the persisted state is
unchanged. -/
theorem oversize_input_rejected_before_any_write (env : IngestEnv)
    (sourceName state debData : Bytes) (h : debData.length > maxDebSize) :
    processNewDeb env sourceName state debData = ([], .error ".deb exceeds maximum size") := by
  unfold processNewDeb
  simp [h]

/-- Witness for C5: a 512 MiB + 1 byte input is rejected with no writes. -/
theorem oversize_input_rejected_witness :
    processNewDeb trivialIngestEnv (bs "discord") (bs "etag-1")
        (List.replicate (maxDebSize + 1) 'a')
      = ([], .error ".deb exceeds maximum size") :=
  oversize_input_rejected_before_any_write trivialIngestEnv (bs "discord") (bs "etag-1")
    (List.replicate (maxDebSize + 1) 'a')
    (by rw [List.length_replicate]; exact Nat.lt_succ_self _)

/-- C7: for requests routed to the proxy handler (paths under `/dists/` or
`/pool/`), a path whose stripped form contains `..` yields status 400 with no
object-store call, and every key the handler does look up is free of `..`. -/
theorem proxy_rejects_dotdot (path : Bytes) (store : Bytes → Option Bytes)
    (hroute : (bs "/dists/").isPrefixOf path ∨ (bs "/pool/").isPrefixOf path) :
    (containsSub (goTrimPrefixOf path (bs "/")) (bs "..") = true →
        handleProxy path store = (400, [])) ∧
      ∀ k ∈ (handleProxy path store).2, containsSub k (bs "..") = false := by
  constructor
  · intro h
    unfold handleProxy
    simp [h]
  · intro k hk
    unfold handleProxy at hk
    by_cases h : containsSub (goTrimPrefixOf path (bs "/")) (bs "..") = true
    · simp [h] at hk
    · rcases hs : store (goTrimPrefixOf path (bs "/")) with _ | v <;>
        simp [h, hs] at hk <;> simpa [hk] using Bool.not_eq_true _ ▸ (by simpa using h)

/-- Witness for C7: `/dists/../x` is answered 400 with no store call. -/
theorem proxy_rejects_dotdot_witness :
    (containsSub (goTrimPrefixOf (bs "/dists/../x") (bs "/")) (bs "..") = true →
        handleProxy (bs "/dists/../x") (fun _ => none) = (400, [])) ∧
      ∀ k ∈ (handleProxy (bs "/dists/../x") (fun _ => none)).2,
        containsSub k (bs "..") = false :=
  proxy_rejects_dotdot (bs "/dists/../x") (fun _ => none) (Or.inl (by decide))

/-- C3: the rendered stanza of a package descriptor is the stored control
fields verbatim in stored order, then `Filename`, `Size`, `MD5sum`, `SHA1`,
`SHA256` lines in that exact order, then the terminating blank line. -/
theorem packages_stanza_rendering (pkg : PackageInfo) :
    GeneratePackagesFile [pkg] =
      (pkg.Control.Fields.map (fun f => f.key ++ ':' :: ' ' :: f.value ++ ['\n'])).flatten
        ++ bs "Filename: " ++ pkg.Filename ++ ['\n']
        ++ bs "Size: " ++ natToBytes pkg.Size ++ ['\n']
        ++ bs "MD5sum: " ++ pkg.MD5 ++ ['\n']
        ++ bs "SHA1: " ++ pkg.SHA1 ++ ['\n']
        ++ bs "SHA256: " ++ pkg.SHA256 ++ ['\n']
        ++ ['\n'] := by
  simp [GeneratePackagesFile, packageStanza]

/-- The code's wait equals the claim's backoff. -/
theorem retryWait_eq_claimedBackoff (attempt : Nat) (ra : Bytes) :
    retryWait attempt ra = claimedBackoff attempt ra := by
  unfold retryWait claimedBackoff
  by_cases hra : ra = []
  · subst hra
    simp [goAtoi, goParseIntDec, splitSign]
  · simp only [hra]
    rcases h : goAtoi ra with _ | n
    · simp [h, hra]
    · simp only [h]
      by_cases hn : n > 0
      · have : (min n 3600).toNat = min n.toNat 3600 := by omega
        simp [hn, this, hra]
      · simp [hn, hra, show ¬(0 < n) from hn]

/-- C6: the retry loop unrolled.  A non-429 response (or transport error) is
returned to the caller immediately; each 429 waits the claimed backoff —
`30·2^attempt` seconds unless `Retry-After` parses as a positive integer `n`,
then `min(n, 3600)`, with non-numeric or non-positive values ignored — and
after three 429 responses the helper fails with the rate-limited error. -/
theorem http_with_retry_spec (resp : Nat → Except String HttpResp) :
    HTTPWithRetry resp =
      match resp 0 with
      | .error e => ⟨[], .error e⟩
      | .ok r0 =>
        if r0.status ≠ 429 then ⟨[], .ok r0⟩
        else
          match resp 1 with
          | .error e => ⟨[claimedBackoff 0 r0.retryAfter], .error e⟩
          | .ok r1 =>
            if r1.status ≠ 429 then ⟨[claimedBackoff 0 r0.retryAfter], .ok r1⟩
            else
              match resp 2 with
              | .error e =>
                ⟨[claimedBackoff 0 r0.retryAfter, claimedBackoff 1 r1.retryAfter], .error e⟩
              | .ok r2 =>
                if r2.status ≠ 429 then
                  ⟨[claimedBackoff 0 r0.retryAfter, claimedBackoff 1 r1.retryAfter], .ok r2⟩
                else
                  ⟨[claimedBackoff 0 r0.retryAfter, claimedBackoff 1 r1.retryAfter,
                      claimedBackoff 2 r2.retryAfter],
                    .error "rate limited after 3 retries"⟩ := by
  unfold HTTPWithRetry
  rcases h0 : resp 0 with e0 | r0
  · simp [httpRetryAux, h0]
  · by_cases hs0 : r0.status = 429
    · rcases h1 : resp 1 with e1 | r1
      · simp [httpRetryAux, h0, h1, hs0, retryWait_eq_claimedBackoff]
      · by_cases hs1 : r1.status = 429
        · rcases h2 : resp 2 with e2 | r2
          · simp [httpRetryAux, h0, h1, h2, hs0, hs1, retryWait_eq_claimedBackoff]
          · by_cases hs2 : r2.status = 429
            · simp [httpRetryAux, h0, h1, h2, hs0, hs1, hs2, retryWait_eq_claimedBackoff]
            · simp [httpRetryAux, h0, h1, h2, hs0, hs1, hs2, retryWait_eq_claimedBackoff]
        · simp [httpRetryAux, h0, h1, hs0, hs1, retryWait_eq_claimedBackoff]
    · simp [httpRetryAux, h0, hs0]

/-- Length of a padded-truncated field is exactly its width. -/
theorem length_padTrunc (s : Bytes) (w : Nat) : (padTrunc s w).length = w := by
  simp [padTrunc]
  omega

/-- Writing a field with `copy` at the first non-space offset of a
space-filled tail: the field lands right-padded (or truncated) at that
offset and the remaining tail stays spaces. -/
theorem goCopyAt_step (done : Bytes) (m w : Nat) (src : Bytes) (hw : w ≤ m) :
    goCopyAt (done ++ List.replicate m ' ') done.length w src
      = (done ++ padTrunc src w) ++ List.replicate (m - w) ' ' := by
  unfold goCopyAt padTrunc
  rcases Nat.le_total w src.length with hle | hle
  · have hn : min w src.length = w := by omega
    have htk : (src ++ List.replicate (w - src.length) ' ').take w = src.take w := by
      have : w - src.length = 0 := by omega
      simp [this, List.take_append_of_le_length hle]
    rw [hn, htk, List.take_left, List.drop_append, List.drop_replicate]
  · have hn : min w src.length = src.length := by omega
    have htk : (src ++ List.replicate (w - src.length) ' ').take w
        = src ++ List.replicate (w - src.length) ' ' := by
      apply List.take_of_length_le
      simp
      omega
    have hrep : List.replicate (m - src.length) ' '
        = List.replicate (w - src.length) ' ' ++ List.replicate (m - w) ' ' := by
      rw [← List.replicate_add]
      congr 1
      omega
    rw [hn, htk, List.take_left, List.drop_append, List.drop_replicate,
      List.take_of_length_le (by omega : src.length ≤ src.length), hrep]
    simp [List.append_assoc]

/-- The `List.set` past a left append segment acts on the right segment. -/
theorem set_append_of_le (l r : Bytes) (i : Nat) (c : Char) (h : l.length ≤ i) :
    (l ++ r).set i c = l ++ r.set (i - l.length) c := by
  induction l generalizing i with
  | nil => simp
  | cons x t ih =>
    cases i with
    | zero => simp at h
    | succ j =>
      show x :: (t ++ r).set j c = _
      rw [ih j (by simpa using h)]
      simp [Nat.succ_sub_succ]

/-- Truncating an already right-padded field to its own width is plain
right-padding. -/
theorem padTrunc_sprintfLeftAlign (s : Bytes) (w : Nat) :
    padTrunc (sprintfLeftAlign s w) w = padTrunc s w := by
  unfold padTrunc sprintfLeftAlign
  have hz : w - (s ++ List.replicate (w - s.length) ' ').length = 0 := by
    simp
    omega
  rw [hz]
  simp

/-- C9 counterexample: the writer does NOT left-pad its header fields.  For a
one-byte name the first 16 header bytes are the name followed by fifteen
spaces, not fifteen spaces followed by the name. -/
theorem ar_writer_header_not_left_padded :
    (writeEntry ⟨bs "a", 0, 0, 0⟩ []).take 16 = bs "a               " ∧
      (writeEntry ⟨bs "a", 0, 0, 0⟩ []).take 16 ≠ bs "               a" := by
  constructor
  · decide
  · decide

/-- C9 (amended): the writer left-justifies — pads on the RIGHT with spaces —
each header field to its fixed width (name 16, modtime 12, uid 6, gid 6,
mode 8, size 10), emits the unused uid and gid fields as `"0"`, appends
exactly one `'\n'` pad byte iff the data length is odd, and the total entry
length is even, so the following header starts on an even byte offset. -/
theorem ar_writer_entry_layout (h : ArHeaderRec) (data : Bytes) :
    writeEntry h data =
        padTrunc h.name 16 ++ padTrunc (intToBytes h.modTime) 12
          ++ padTrunc (bs "0") 6 ++ padTrunc (bs "0") 6
          ++ padTrunc (octToBytes h.mode) 8 ++ padTrunc (natToBytes data.length) 10
          ++ bs "`\n" ++ data ++ (if data.length % 2 = 1 then ['\n'] else [])
      ∧ (writeEntry h data).length % 2 = 0 := by
  have e1 : goCopyAt (List.replicate 60 ' ') 0 16 (sprintfLeftAlign h.name 16)
      = padTrunc h.name 16 ++ List.replicate 44 ' ' := by
    have hs := goCopyAt_step [] 60 16 (sprintfLeftAlign h.name 16) (by omega)
    simpa [padTrunc_sprintfLeftAlign] using hs
  have e2 : goCopyAt (padTrunc h.name 16 ++ List.replicate 44 ' ') 16 12
        (sprintfLeftAlign (intToBytes h.modTime) 12)
      = (padTrunc h.name 16 ++ padTrunc (intToBytes h.modTime) 12)
          ++ List.replicate 32 ' ' := by
    have hs := goCopyAt_step (padTrunc h.name 16) 44 12
      (sprintfLeftAlign (intToBytes h.modTime) 12) (by omega)
    simpa [padTrunc_sprintfLeftAlign, length_padTrunc] using hs
  have e3 : goCopyAt ((padTrunc h.name 16 ++ padTrunc (intToBytes h.modTime) 12)
          ++ List.replicate 32 ' ') 28 6 (sprintfLeftAlign (bs "0") 6)
      = ((padTrunc h.name 16 ++ padTrunc (intToBytes h.modTime) 12)
          ++ padTrunc (bs "0") 6) ++ List.replicate 26 ' ' := by
    have hs := goCopyAt_step (padTrunc h.name 16 ++ padTrunc (intToBytes h.modTime) 12)
      32 6 (sprintfLeftAlign (bs "0") 6) (by omega)
    simpa [padTrunc_sprintfLeftAlign, length_padTrunc] using hs
  have e4 : goCopyAt (((padTrunc h.name 16 ++ padTrunc (intToBytes h.modTime) 12)
          ++ padTrunc (bs "0") 6) ++ List.replicate 26 ' ') 34 6 (sprintfLeftAlign (bs "0") 6)
      = (((padTrunc h.name 16 ++ padTrunc (intToBytes h.modTime) 12)
          ++ padTrunc (bs "0") 6) ++ padTrunc (bs "0") 6) ++ List.replicate 20 ' ' := by
    have hs := goCopyAt_step ((padTrunc h.name 16 ++ padTrunc (intToBytes h.modTime) 12)
        ++ padTrunc (bs "0") 6) 26 6 (sprintfLeftAlign (bs "0") 6) (by omega)
    simpa [padTrunc_sprintfLeftAlign, length_padTrunc] using hs
  have e5 : goCopyAt ((((padTrunc h.name 16 ++ padTrunc (intToBytes h.modTime) 12)
          ++ padTrunc (bs "0") 6) ++ padTrunc (bs "0") 6) ++ List.replicate 20 ' ') 40 8
        (sprintfLeftAlign (octToBytes h.mode) 8)
      = ((((padTrunc h.name 16 ++ padTrunc (intToBytes h.modTime) 12)
          ++ padTrunc (bs "0") 6) ++ padTrunc (bs "0") 6)
          ++ padTrunc (octToBytes h.mode) 8) ++ List.replicate 12 ' ' := by
    have hs := goCopyAt_step (((padTrunc h.name 16 ++ padTrunc (intToBytes h.modTime) 12)
        ++ padTrunc (bs "0") 6) ++ padTrunc (bs "0") 6) 20 8
      (sprintfLeftAlign (octToBytes h.mode) 8) (by omega)
    simpa [padTrunc_sprintfLeftAlign, length_padTrunc] using hs
  have e6 : goCopyAt (((((padTrunc h.name 16 ++ padTrunc (intToBytes h.modTime) 12)
          ++ padTrunc (bs "0") 6) ++ padTrunc (bs "0") 6)
          ++ padTrunc (octToBytes h.mode) 8) ++ List.replicate 12 ' ') 48 10
        (sprintfLeftAlign (natToBytes data.length) 10)
      = (((((padTrunc h.name 16 ++ padTrunc (intToBytes h.modTime) 12)
          ++ padTrunc (bs "0") 6) ++ padTrunc (bs "0") 6)
          ++ padTrunc (octToBytes h.mode) 8)
          ++ padTrunc (natToBytes data.length) 10) ++ List.replicate 2 ' ' := by
    have hs := goCopyAt_step ((((padTrunc h.name 16 ++ padTrunc (intToBytes h.modTime) 12)
        ++ padTrunc (bs "0") 6) ++ padTrunc (bs "0") 6)
        ++ padTrunc (octToBytes h.mode) 8) 12 10
      (sprintfLeftAlign (natToBytes data.length) 10) (by omega)
    simpa [padTrunc_sprintfLeftAlign, length_padTrunc] using hs
  have hdone : (((((padTrunc h.name 16 ++ padTrunc (intToBytes h.modTime) 12)
        ++ padTrunc (bs "0") 6) ++ padTrunc (bs "0") 6)
        ++ padTrunc (octToBytes h.mode) 8)
        ++ padTrunc (natToBytes data.length) 10).length = 58 := by
    simp [length_padTrunc]
  have e7 : ((((((padTrunc h.name 16 ++ padTrunc (intToBytes h.modTime) 12)
          ++ padTrunc (bs "0") 6) ++ padTrunc (bs "0") 6)
          ++ padTrunc (octToBytes h.mode) 8)
          ++ padTrunc (natToBytes data.length) 10) ++ List.replicate 2 ' ').set 58 backquote
      = (((((padTrunc h.name 16 ++ padTrunc (intToBytes h.modTime) 12)
          ++ padTrunc (bs "0") 6) ++ padTrunc (bs "0") 6)
          ++ padTrunc (octToBytes h.mode) 8)
          ++ padTrunc (natToBytes data.length) 10) ++ [backquote, ' '] := by
    rw [set_append_of_le _ _ 58 backquote (by rw [hdone])]
    rw [hdone]
    norm_num
    rfl
  have e8 : ((((((padTrunc h.name 16 ++ padTrunc (intToBytes h.modTime) 12)
          ++ padTrunc (bs "0") 6) ++ padTrunc (bs "0") 6)
          ++ padTrunc (octToBytes h.mode) 8)
          ++ padTrunc (natToBytes data.length) 10) ++ [backquote, ' ']).set 59 '\n'
      = (((((padTrunc h.name 16 ++ padTrunc (intToBytes h.modTime) 12)
          ++ padTrunc (bs "0") 6) ++ padTrunc (bs "0") 6)
          ++ padTrunc (octToBytes h.mode) 8)
          ++ padTrunc (natToBytes data.length) 10) ++ bs "`\n" := by
    rw [set_append_of_le _ _ 59 '\n' (by rw [hdone]; omega)]
    rw [hdone]
    norm_num
    rfl
  have hmain : writeEntry h data =
      padTrunc h.name 16 ++ padTrunc (intToBytes h.modTime) 12
        ++ padTrunc (bs "0") 6 ++ padTrunc (bs "0") 6
        ++ padTrunc (octToBytes h.mode) 8 ++ padTrunc (natToBytes data.length) 10
        ++ bs "`\n" ++ data ++ (if data.length % 2 = 1 then ['\n'] else []) := by
    simp only [writeEntry]
    rw [e1, e2, e3, e4, e5, e6, e7, e8]
  refine ⟨hmain, ?_⟩
  rw [hmain]
  have hbq : (bs "`\n").length = 2 := by decide
  by_cases hodd : data.length % 2 = 1
  · simp [hodd, length_padTrunc, hbq]
    omega
  · simp [hodd, length_padTrunc, hbq]
    omega

/-- C8 counterexample: an entry header whose mode field does not parse as a
number is NOT rejected — `next` succeeds and silently reports mode `0`,
because the code discards `strconv.ParseInt`'s error for the mode (and
modtime) fields. -/
theorem ar_reader_accepts_unparsable_mode :
    (newArReader (bs "!<arch>\n" ++ badModeHeader)).bind arNext
      = .ok (⟨bs "x", 0, 4, 0⟩, ⟨[], 4, 0⟩) := by decide

/-- C8 (amended): the reader fails when the 8-byte global magic is not
`!<arch>\n`, fails when a header's trailer byte pair is not backquote + LF,
and fails with a parse error when the size field does not parse; but a mode
(or modtime) field that does not parse is silently ignored — the entry is
accepted with the lenient value (`0` on a syntax error). -/
theorem ar_reader_header_validation (hdr rest : Bytes) (hlen : hdr.length = 60) :
    (∀ g : Bytes, 8 ≤ g.length → g.take 8 ≠ bs "!<arch>\n" →
        newArReader g = .error "not an ar archive") ∧
      (hdr.drop 58 ≠ bs "`\n" →
        arNext ⟨hdr ++ rest, 0, 0⟩ = .error "invalid ar entry header magic") ∧
      (hdr.drop 58 = bs "`\n" →
        goParseIntDec (goTrimSpace ((hdr.drop 48).take 10)) = none →
          arNext ⟨hdr ++ rest, 0, 0⟩ = .error "parsing ar entry size") ∧
      ∀ n : Int, hdr.drop 58 = bs "`\n" →
        goParseIntDec (goTrimSpace ((hdr.drop 48).take 10)) = some n →
          arNext ⟨hdr ++ rest, 0, 0⟩ = .ok
            (⟨goTrimRightSpaces (hdr.take 16),
              (if goTrimSpace ((hdr.drop 16).take 12) = [] then 0
                else goParseIntDecLenient (goTrimSpace ((hdr.drop 16).take 12))),
              n,
              (if goTrimSpace ((hdr.drop 40).take 8) = [] then 0
                else goParseIntOctLenient (goTrimSpace ((hdr.drop 40).take 8)))⟩,
             ⟨rest, n, if Int.tmod n 2 = 1 then 1 else 0⟩) := by
  have htake : (hdr ++ rest).take 60 = hdr := by
    rw [← hlen]
    exact List.take_left hdr rest
  have hdrop60 : (hdr ++ rest).drop 60 = rest := by
    rw [← hlen]
    exact List.drop_left hdr rest
  have hlong : ¬((hdr ++ rest).length < 60) := by
    simp [List.length_append]
    omega
  refine ⟨?_, ?_, ?_, ?_⟩
  · intro g hg hm
    unfold newArReader
    rw [if_neg (by omega), if_neg hm]
  · intro hbad
    unfold arNext
    simp [htake, hdrop60, hlong, hbad]
    omega
  · intro hok hsize
    unfold arNext
    simp [htake, hdrop60, hlong, hok, hsize]
    omega
  · intro n hok hsize
    unfold arNext
    simp [htake, hdrop60, hlong, hok, hsize]
    omega

/-- Witness for C8's amended theorem: instantiated at a header with an
unparsable size field (trailer valid), every conjunct holds; in particular
`next` fails with the size parse error there. -/
theorem ar_reader_header_validation_witness :
    arNext ⟨(padTrunc (bs "x") 16 ++ padTrunc (bs "0") 12 ++ padTrunc (bs "0") 6
        ++ padTrunc (bs "0") 6 ++ padTrunc (bs "0") 8 ++ padTrunc (bs "9q") 10
        ++ bs "`\n") ++ [], 0, 0⟩ = .error "parsing ar entry size" :=
  (ar_reader_header_validation
      (padTrunc (bs "x") 16 ++ padTrunc (bs "0") 12 ++ padTrunc (bs "0") 6
        ++ padTrunc (bs "0") 6 ++ padTrunc (bs "0") 8 ++ padTrunc (bs "9q") 10
        ++ bs "`\n") [] (by decide)).2.2.1 (by decide) (by decide)

/-- Byte-wise lexicographic order is transitive. -/
theorem bytesLe_trans : ∀ a b c : Bytes,
    bytesLe a b = true → bytesLe b c = true → bytesLe a c = true
  | [], _, _, _, _ => rfl
  | _ :: _, [], _, hab, _ => by simp [bytesLe] at hab
  | _ :: _, _ :: _, [], _, hbc => by simp [bytesLe] at hbc
  | x :: as, y :: bs', z :: cs, hab, hbc => by
    simp only [bytesLe] at hab hbc ⊢
    by_cases hxy : x < y
    · by_cases hyz : y < z
      · simp [lt_trans hxy hyz]
      · by_cases hzy : z < y
        · simp [hyz, hzy] at hbc
        · have hyz' : y = z := le_antisymm (not_lt.mp hzy) (not_lt.mp hyz)
          simp [hyz' ▸ hxy]
    · by_cases hyx : y < x
      · simp [hxy, hyx] at hab
      · have hxy' : x = y := le_antisymm (not_lt.mp hyx) (not_lt.mp hxy)
        subst hxy'
        simp only [lt_irrefl, if_false] at hab
        by_cases hyz : x < z
        · simp [hyz]
        · by_cases hzy : z < x
          · simp [hyz, hzy] at hbc
          · have hyz' : x = z := le_antisymm (not_lt.mp hzy) (not_lt.mp hyz)
            subst hyz'
            simp only [lt_irrefl, if_false] at hbc ⊢
            exact bytesLe_trans as bs' cs hab hbc

/-- Byte-wise lexicographic order is total. -/
theorem bytesLe_total : ∀ a b : Bytes, bytesLe a b = true ∨ bytesLe b a = true
  | [], _ => Or.inl rfl
  | _ :: _, [] => Or.inr rfl
  | x :: as, y :: bs' => by
    by_cases hxy : x < y
    · left
      simp [bytesLe, hxy]
    · by_cases hyx : y < x
      · right
        simp [bytesLe, hyx]
      · rcases bytesLe_total as bs' with h | h
        · left
          simp [bytesLe, hxy, hyx, h]
        · right
          simp [bytesLe, hxy, hyx, h]

/-- The empty byte string sorts below everything. -/
theorem orderedInsert_nil_bytes (t : List Bytes) :
    List.orderedInsert BytesLe [] t = [] :: t := by
  cases t with
  | nil => rfl
  | cons b l => simp [List.orderedInsert, BytesLe, bytesLe]

/-- Inserting a non-empty byte string skips a leading block of empties. -/
theorem orderedInsert_skips_empties (x : Bytes) (hx : x ≠ []) (k : Nat) (s : List Bytes) :
    List.orderedInsert BytesLe x (List.replicate k [] ++ s)
      = List.replicate k [] ++ List.orderedInsert BytesLe x s := by
  induction k with
  | zero => simp
  | succ k ih =>
    obtain ⟨c, t, rfl⟩ : ∃ c t, x = c :: t := by
      cases x with
      | nil => exact absurd rfl hx
      | cons c t => exact ⟨c, t, rfl⟩
    simp only [List.replicate_succ, List.cons_append, List.orderedInsert]
    rw [if_neg (by simp [BytesLe, bytesLe])]
    exact congrArg (List.cons []) ih

/-- Insertion sort moves all empty fragments to the front; the sorted
non-empty fragments follow in order. -/
theorem insertionSort_bytes_decomp : ∀ l : List Bytes,
    List.insertionSort BytesLe l
      = List.replicate (l.count []) []
          ++ List.insertionSort BytesLe (l.filter (fun d => !d.isEmpty))
  | [] => rfl
  | x :: l => by
    by_cases hx : x = []
    · subst hx
      simp only [List.insertionSort, insertionSort_bytes_decomp l]
      rw [orderedInsert_nil_bytes]
      simp [List.count_cons, List.replicate_succ]
    · have hfe : (!x.isEmpty) = true := by
        cases x with
        | nil => exact absurd rfl hx
        | cons c t => rfl
      simp only [List.insertionSort, insertionSort_bytes_decomp l]
      rw [orderedInsert_skips_empties x hx]
      rw [List.filter_cons_of_pos (p := fun d => !List.isEmpty d) hfe]
      have hcnt : (x :: l).count ([] : Bytes) = l.count [] := by
        simp [List.count_cons, hx]
      rw [hcnt]
      rfl

/-- Flattening a block of empties contributes nothing. -/
theorem flatten_replicate_nil (k : Nat) : (List.replicate k ([] : Bytes)).flatten = [] := by
  induction k with
  | zero => rfl
  | succ k ih => simp [List.replicate_succ, ih]

/-- The loop body of the fragment collection equals a filter of the
successful downloads of `/packages-entry` keys. -/
theorem collectEntries_eq (keys : List Bytes) (dl : Bytes → Option Bytes) :
    collectEntries keys dl
      = ((keys.filter (fun k => goSuffix k (bs "/packages-entry"))).filterMap dl).filter
          (fun d => !d.isEmpty) := by
  induction keys with
  | nil => rfl
  | cons k rest ih =>
    by_cases hs : goSuffix k (bs "/packages-entry")
    · rcases hd : dl k with _ | d
      · simp [collectEntries, hs, hd, ih]
      · by_cases hlen : d.length > 0
        · have : (!d.isEmpty) = true := by
            cases d with
            | nil => simp at hlen
            | cons c t => rfl
          simp [collectEntries, hs, hd, hlen, ih, this]
        · have hdnil : d = [] := by
            cases d with
            | nil => rfl
            | cons c t => simp at hlen
          simp [collectEntries, hs, hd, hlen, ih, hdnil]
    · simp [collectEntries, hs, ih]

/-- C2: the generated `Packages` object is the byte concatenation of the
successfully downloaded fragment byte-strings in ascending lexicographic
order, and the stanza chunks actually concatenated are pairwise sorted
ascending by their fragment bytes. -/
theorem packages_concat_sorted_fragments (env : RegenEnv) (keys : List Bytes)
    (dl : Bytes → Option Bytes) :
    (regenerateRepoMetadata env keys dl).packagesData
        = (List.insertionSort BytesLe
            ((keys.filter (fun k => goSuffix k (bs "/packages-entry"))).filterMap dl)).flatten
      ∧ List.Sorted BytesLe (List.insertionSort BytesLe (collectEntries keys dl)) := by
  constructor
  · show (List.insertionSort BytesLe (collectEntries keys dl)).flatten = _
    rw [collectEntries_eq]
    rw [insertionSort_bytes_decomp
      ((keys.filter (fun k => goSuffix k (bs "/packages-entry"))).filterMap dl)]
    rw [List.flatten_append, flatten_replicate_nil]
    rfl
  · haveI : IsTrans Bytes BytesLe := ⟨fun a b c => bytesLe_trans a b c⟩
    haveI : IsTotal Bytes BytesLe := ⟨bytesLe_total⟩
    exact List.sorted_insertionSort BytesLe (collectEntries keys dl)

/-- C1: after a completed regeneration, the `Release` object's `MD5Sum`,
`SHA1` and `SHA256` sections list, for `main/binary-amd64/Packages` and
`main/binary-amd64/Packages.gz`, exactly the sizes and MD5/SHA-1/SHA-256
digests of the very byte strings uploaded in that same regeneration under
`dists/stable/main/binary-amd64/Packages` and `.../Packages.gz`. -/
theorem release_lists_uploaded_hashes (env : RegenEnv) (keys : List Bytes)
    (dl : Bytes → Option Bytes) :
    (regenerateRepoMetadata env keys dl).uploads.lookup
          (bs "dists/stable/main/binary-amd64/Packages")
        = some (regenerateRepoMetadata env keys dl).packagesData
      ∧ (regenerateRepoMetadata env keys dl).uploads.lookup
            (bs "dists/stable/main/binary-amd64/Packages.gz")
          = some (regenerateRepoMetadata env keys dl).packagesGz
      ∧ (regenerateRepoMetadata env keys dl).uploads.lookup (bs "dists/stable/Release")
          = some (regenerateRepoMetadata env keys dl).releaseData
      ∧ (regenerateRepoMetadata env keys dl).releaseData
          = bs "Origin: " ++ env.origin ++ ['\n']
            ++ bs "Label: " ++ env.label ++ ['\n']
            ++ bs "Suite: stable\n" ++ bs "Codename: stable\n"
            ++ bs "Architectures: amd64\n" ++ bs "Components: main\n"
            ++ bs "Date: " ++ env.date ++ ['\n']
            ++ bs "MD5Sum:\n"
            ++ (' ' :: env.md5 (regenerateRepoMetadata env keys dl).packagesData
                ++ ' ' :: natToBytes (regenerateRepoMetadata env keys dl).packagesData.length
                ++ ' ' :: bs "main/binary-amd64/Packages" ++ ['\n'])
            ++ (' ' :: env.md5 (regenerateRepoMetadata env keys dl).packagesGz
                ++ ' ' :: natToBytes (regenerateRepoMetadata env keys dl).packagesGz.length
                ++ ' ' :: bs "main/binary-amd64/Packages.gz" ++ ['\n'])
            ++ bs "SHA1:\n"
            ++ (' ' :: env.sha1 (regenerateRepoMetadata env keys dl).packagesData
                ++ ' ' :: natToBytes (regenerateRepoMetadata env keys dl).packagesData.length
                ++ ' ' :: bs "main/binary-amd64/Packages" ++ ['\n'])
            ++ (' ' :: env.sha1 (regenerateRepoMetadata env keys dl).packagesGz
                ++ ' ' :: natToBytes (regenerateRepoMetadata env keys dl).packagesGz.length
                ++ ' ' :: bs "main/binary-amd64/Packages.gz" ++ ['\n'])
            ++ bs "SHA256:\n"
            ++ (' ' :: env.sha256 (regenerateRepoMetadata env keys dl).packagesData
                ++ ' ' :: natToBytes (regenerateRepoMetadata env keys dl).packagesData.length
                ++ ' ' :: bs "main/binary-amd64/Packages" ++ ['\n'])
            ++ (' ' :: env.sha256 (regenerateRepoMetadata env keys dl).packagesGz
                ++ ' ' :: natToBytes (regenerateRepoMetadata env keys dl).packagesGz.length
                ++ ' ' :: bs "main/binary-amd64/Packages.gz" ++ ['\n'])
      ∧ (regenerateRepoMetadata env keys dl).packagesGz
          = env.gzip (regenerateRepoMetadata env keys dl).packagesData := by
  refine ⟨?_, ?_, ?_, ?_, ?_⟩
  · simp [regenerateRepoMetadata, List.lookup]
  · simp [regenerateRepoMetadata, List.lookup,
      show (bs "dists/stable/main/binary-amd64/Packages.gz"
          == bs "dists/stable/main/binary-amd64/Packages") = false by decide]
  · simp [regenerateRepoMetadata, List.lookup,
      show (bs "dists/stable/Release"
          == bs "dists/stable/main/binary-amd64/Packages") = false by decide,
      show (bs "dists/stable/Release"
          == bs "dists/stable/main/binary-amd64/Packages.gz") = false by decide]
  · simp [regenerateRepoMetadata, GenerateReleaseFile, ComputeFileHash]
  · rfl

/-- The `splitOnNl` never returns the empty list. -/
theorem splitOnNl_ne_nil : ∀ v : Bytes, splitOnNl v ≠ []
  | [] => by simp [splitOnNl]
  | c :: t => by
    simp only [splitOnNl]
    by_cases hc : c = '\n'
    · simp [hc]
    · rcases h : splitOnNl t with _ | ⟨p, ps⟩ <;> simp [hc, h]

/-- Splitting at a newline splits the surrounding segments independently. -/
theorem splitOnNl_append_nl : ∀ u w : Bytes,
    splitOnNl (u ++ '\n' :: w) = splitOnNl u ++ splitOnNl w
  | [], w => by simp [splitOnNl]
  | c :: u, w => by
    by_cases hc : c = '\n'
    · subst hc
      simp only [List.cons_append, splitOnNl, if_pos rfl, List.append_eq]
      rw [splitOnNl_append_nl u w]
      simp [splitOnNl]
    · simp only [List.cons_append, splitOnNl, if_neg hc, List.append_eq]
      rw [splitOnNl_append_nl u w]
      rcases h : splitOnNl u with _ | ⟨p, ps⟩
      · exact absurd h (splitOnNl_ne_nil u)
      · simp [h]

/-- A newline-free prefix joins the first split part. -/
theorem splitOnNl_append_head : ∀ (a v : Bytes) (p : Bytes) (ps : List Bytes),
    '\n' ∉ a → splitOnNl v = p :: ps → splitOnNl (a ++ v) = (a ++ p) :: ps
  | [], v, p, ps, _, hv => by simpa using hv
  | c :: a, v, p, ps, hnl, hv => by
    have hc : c ≠ '\n' := by
      intro h
      exact hnl (by simp [h])
    have ha : '\n' ∉ a := fun h => hnl (by simp [h])
    simp only [List.cons_append, splitOnNl, if_neg hc, List.append_eq]
    rw [splitOnNl_append_head a v p ps ha hv]

/-- Reassembling the split parts with newlines recovers the original. -/
theorem splitOnNl_reconstruct : ∀ (v : Bytes) (p : Bytes) (ps : List Bytes),
    splitOnNl v = p :: ps → v = p ++ (ps.map (fun l => '\n' :: l)).flatten
  | [], p, ps, h => by
    simp only [splitOnNl] at h
    injection h with h1 h2
    subst h1
    subst h2
    simp
  | c :: t, p, ps, h => by
    rcases hq : splitOnNl t with _ | ⟨q, qs⟩
    · exact absurd hq (splitOnNl_ne_nil t)
    · by_cases hc : c = '\n'
      · subst hc
        have h2 : splitOnNl ('\n' :: t) = [] :: q :: qs := by
          simp [splitOnNl, hq]
        rw [h2] at h
        injection h with h3 h4
        subst h3
        subst h4
        have ht := splitOnNl_reconstruct t q qs hq
        simp only [List.map_cons, List.flatten_cons, List.nil_append, List.cons_append]
        rw [← ht]
      · have h2 : splitOnNl (c :: t) = (c :: q) :: qs := by
          simp only [splitOnNl, if_neg hc, hq]
        rw [h2] at h
        injection h with h3 h4
        subst h3
        subst h4
        have ht := splitOnNl_reconstruct t q qs hq
        simp only [List.cons_append]
        rw [← ht]

/-- Every character of a split part occurs in the original string. -/
theorem splitOnNl_chars : ∀ (v l : Bytes), l ∈ splitOnNl v → ∀ c ∈ l, c ∈ v
  | [], l, hl, c, hc => by
    simp only [splitOnNl, List.mem_singleton] at hl
    subst hl
    simp at hc
  | d :: t, l, hl, c, hc => by
    rcases hq : splitOnNl t with _ | ⟨q, qs⟩
    · exact absurd hq (splitOnNl_ne_nil t)
    · by_cases hd : d = '\n'
      · subst hd
        have h2 : splitOnNl ('\n' :: t) = [] :: q :: qs := by
          simp [splitOnNl, hq]
        rw [h2] at hl
        rcases List.mem_cons.mp hl with rfl | hl2
        · simp at hc
        · exact List.mem_cons_of_mem _ (splitOnNl_chars t l (by rw [hq]; exact hl2) c hc)
      · have h2 : splitOnNl (d :: t) = (d :: q) :: qs := by
          simp only [splitOnNl, if_neg hd, hq]
        rw [h2] at hl
        rcases List.mem_cons.mp hl with rfl | hl2
        · rcases List.mem_cons.mp hc with rfl | hc2
          · exact List.mem_cons_self _ _
          · exact List.mem_cons_of_mem _
              (splitOnNl_chars t q (by rw [hq]; exact List.mem_cons_self q qs) c hc2)
        · exact List.mem_cons_of_mem _
            (splitOnNl_chars t l (by rw [hq]; exact List.mem_cons_of_mem _ hl2) c hc)

/-- The `dropCR` is the identity on CR-free strings. -/
theorem dropCR_of_no_cr (l : Bytes) (h : '\r' ∉ l) : dropCR l = l := by
  unfold dropCR
  rcases hg : l.getLast? with _ | c
  · simp
  · have hmem : c ∈ l := List.mem_of_mem_getLast? hg
    by_cases hc : c = '\r'
    · exact absurd (hc ▸ hmem) h
    · simp [hg, hc]

/-- The `SplitN` at the first colon of `key ++ ":" ++ tail` recovers the pair
when the key is colon-free. -/
theorem splitFirstColon_append : ∀ (k t : Bytes), ':' ∉ k →
    splitFirstColon (k ++ ':' :: t) = some (k, t)
  | [], t, _ => by simp [splitFirstColon]
  | c :: k, t, h => by
    have hc : c ≠ ':' := by
      intro hh
      exact h (by simp [hh])
    have hk : ':' ∉ k := fun hh => h (by simp [hh])
    simp only [List.cons_append, splitFirstColon, if_neg hc, List.append_eq]
    rw [splitFirstColon_append k t hk]
    rfl

/-- The `dropWhile` never lengthens a list. -/
theorem length_dropWhile_le (p : Char → Bool) (l : Bytes) :
    (l.dropWhile p).length ≤ l.length :=
  (List.dropWhile_sublist p (l := l)).length_le

/-- A `dropWhile` that preserves length is the identity. -/
theorem dropWhile_eq_self_of_length (p : Char → Bool) :
    ∀ l : Bytes, (l.dropWhile p).length = l.length → l.dropWhile p = l
  | [], _ => rfl
  | c :: t, h => by
    by_cases hc : p c
    · exfalso
      rw [List.dropWhile_cons_of_pos hc] at h
      have := length_dropWhile_le p t
      simp at h
      omega
    · rw [List.dropWhile_cons_of_neg hc]

/-- A string fixed by `TrimSpace` is fixed by each one-sided trim. -/
theorem trim_fixed_both (k : Bytes) (h : goTrimSpace k = k) :
    goTrimLeft k = k ∧ goTrimRight k = k := by
  have h1 : (goTrimLeft k).length ≤ k.length := length_dropWhile_le _ _
  have h2 : (goTrimRight (goTrimLeft k)).length ≤ (goTrimLeft k).length := by
    unfold goTrimRight
    simpa using length_dropWhile_le isGoSpace (goTrimLeft k).reverse
  have hk : (goTrimRight (goTrimLeft k)).length = k.length := by
    unfold goTrimSpace at h
    rw [h]
  have hlen : (goTrimLeft k).length = k.length := by omega
  have hL : goTrimLeft k = k := dropWhile_eq_self_of_length isGoSpace k hlen
  refine ⟨hL, ?_⟩
  unfold goTrimSpace at h
  rw [hL] at h
  exact h

/-- A nonempty left-trim-fixed string starts with a non-space byte. -/
theorem head_not_space_of_trimLeft (c : Char) (t : Bytes) (h : goTrimLeft (c :: t) = c :: t) :
    isGoSpace c = false := by
  by_cases hc : isGoSpace c
  · exfalso
    unfold goTrimLeft at h
    rw [List.dropWhile_cons_of_pos hc] at h
    have hle := length_dropWhile_le isGoSpace t
    have : (c :: t).length = (t.dropWhile isGoSpace).length := by rw [h]
    simp at this
    omega
  · simpa using hc

/-- Dropping a leading space under `TrimLeft`. -/
theorem goTrimLeft_cons_space (c : Char) (v : Bytes) (hc : isGoSpace c = true) :
    goTrimLeft (c :: v) = goTrimLeft v := by
  unfold goTrimLeft
  rw [List.dropWhile_cons_of_pos hc]

/-- A string whose head is not a space is left-trim-fixed. -/
theorem goTrimLeft_fixed_of_head (v : Bytes)
    (h : v = [] ∨ ∃ c t, v = c :: t ∧ isGoSpace c = false) : goTrimLeft v = v := by
  rcases h with rfl | ⟨c, t, rfl, hc⟩
  · rfl
  · unfold goTrimLeft
    rw [List.dropWhile_cons_of_neg (by simp [hc])]

/-- The `TrimSpace` of a string with one prepended space, when the string is
fixed by both one-sided trims. -/
theorem goTrimSpace_space_cons (v : Bytes) (hL : goTrimLeft v = v) (hR : goTrimRight v = v) :
    goTrimSpace (' ' :: v) = v := by
  unfold goTrimSpace
  rw [goTrimLeft_cons_space ' ' v (by decide), hL, hR]

/-- One rendered field is its body plus a newline, then the rest. -/
theorem renderControlFields_cons (f : ControlField) (fs : List ControlField) :
    renderControlFields (f :: fs) = bodyOf f ++ '\n' :: renderControlFields fs := by
  simp [renderControlFields, bodyOf, List.append_assoc]

/-- Lines of the rendered control block: the concatenated line lists of each
field body, plus the final empty part after the last newline. -/
theorem splitOnNl_render : ∀ fs : List ControlField,
    splitOnNl (renderControlFields fs)
      = fs.flatMap (fun f => splitOnNl (bodyOf f)) ++ [[]]
  | [] => by simp [renderControlFields, splitOnNl]
  | f :: fs => by
    rw [renderControlFields_cons, splitOnNl_append_nl, splitOnNl_render fs]
    simp [List.append_assoc]

/-- The scanner's token list for a rendered control block: exactly the
concatenated per-field line lists (the final newline's empty token is
dropped, and no CR stripping occurs on CR-free fields). -/
theorem goScanLines_render (fs : List ControlField)
    (hcr : ∀ f ∈ fs, '\r' ∉ bodyOf f)
    (hlen : ∀ f ∈ fs, ∀ l ∈ splitOnNl (bodyOf f), l.length < maxScanTokenSize) :
    goScanLines (renderControlFields fs) = fs.flatMap (fun f => splitOnNl (bodyOf f)) := by
  unfold goScanLines
  rw [splitOnNl_render fs]
  show List.map dropCR
      (List.takeWhile (fun l => l.length < maxScanTokenSize)
        (if ((fs.flatMap fun f => splitOnNl (bodyOf f)) ++ [[]]).getLast? = some [] then
          ((fs.flatMap fun f => splitOnNl (bodyOf f)) ++ [[]]).dropLast
        else (fs.flatMap fun f => splitOnNl (bodyOf f)) ++ [[]])) = _
  rw [if_pos (List.getLast?_concat _)]
  rw [List.dropLast_concat]
  have htw : ∀ l ∈ fs.flatMap (fun f => splitOnNl (bodyOf f)),
      (fun l : Bytes => decide (l.length < maxScanTokenSize)) l = true := by
    intro l hl
    rcases List.mem_flatMap.mp hl with ⟨f, hf, hlf⟩
    simpa using hlen f hf l hlf
  rw [List.takeWhile_eq_self_iff.mpr htw]
  conv_rhs => rw [← List.map_id (fs.flatMap (fun f => splitOnNl (bodyOf f)))]
  apply List.map_congr_left
  intro l hl
  rcases List.mem_flatMap.mp hl with ⟨f, hf, hlf⟩
  apply dropCR_of_no_cr
  intro hcrmem
  exact hcr f hf (splitOnNl_chars (bodyOf f) l hlf '\r' hcrmem)

/-- The line list of one rendered field body: the key, colon and space joined
to the value's first line, then the value's continuation lines. -/
theorem splitOnNl_bodyOf (f : ControlField) (hkn : '\n' ∉ f.key) (v0 : Bytes)
    (vs : List Bytes) (hsv : splitOnNl f.value = v0 :: vs) :
    splitOnNl (bodyOf f) = (f.key ++ ':' :: ' ' :: v0) :: vs := by
  have hb : bodyOf f = (f.key ++ [':', ' ']) ++ f.value := by
    simp [bodyOf]
  rw [hb]
  have hnl : '\n' ∉ f.key ++ [':', ' '] := by
    intro hm
    rcases List.mem_append.mp hm with hm1 | hm1
    · exact hkn hm1
    · simp at hm1
  rw [splitOnNl_append_head (f.key ++ [':', ' ']) f.value v0 vs hnl hsv]
  congr 1
  simp

/-- Continuation lines accumulate onto the current value verbatim, each
prefixed by a newline. -/
theorem parseCtrlLines_cont : ∀ (vs rest : List Bytes) (k v : Bytes) (ctrl : DebControl),
    (∀ l ∈ vs, l.head? = some ' ' ∨ l.head? = some '\t') →
    parseCtrlLines (vs ++ rest) k v ctrl
      = parseCtrlLines rest k (v ++ (vs.map (fun l => '\n' :: l)).flatten) ctrl
  | [], rest, k, v, ctrl, _ => by simp
  | l :: vs, rest, k, v, ctrl, h => by
    have hl := h l (List.mem_cons_self l vs)
    have hlne : l ≠ [] := by
      rcases hl with h1 | h1 <;> (intro he; subst he; simp at h1)
    have hcond : (l.head? = some ' ' || l.head? = some '\t') = true := by
      rcases hl with h1 | h1 <;> simp [h1]
    rw [List.cons_append]
    simp only [parseCtrlLines]
    rw [if_neg hlne, if_pos hcond]
    rw [parseCtrlLines_cont vs rest k (v ++ '\n' :: l) ctrl
      (fun x hx => h x (List.mem_cons_of_mem _ hx))]
    simp [List.append_assoc]

/-- Processing one well-formed field's rendered lines: the pending field is
flushed and the parser ends holding exactly this field's key and value. -/
theorem parseCtrlLines_field (f : ControlField) (rest : List Bytes) (k v : Bytes)
    (ctrl : DebControl) (hwf : WFField f) :
    parseCtrlLines (splitOnNl (bodyOf f) ++ rest) k v ctrl
      = parseCtrlLines rest f.key f.value (ctrlFlush k v ctrl) := by
  obtain ⟨⟨hk0, hkc, hkn, hkr, hkt⟩, ⟨hvr, hvt, hv0r, hcont⟩, hlen1, hlen2⟩ := hwf
  rcases hsv : splitOnNl f.value with _ | ⟨v0, vs⟩
  · exact absurd hsv (splitOnNl_ne_nil f.value)
  have hrecon : f.value = v0 ++ (vs.map (fun l => '\n' :: l)).flatten :=
    splitOnNl_reconstruct f.value v0 vs hsv
  have hbody : splitOnNl (bodyOf f) = (f.key ++ ':' :: ' ' :: v0) :: vs :=
    splitOnNl_bodyOf f hkn v0 vs hsv
  rw [hbody]
  obtain ⟨kc, kt, hkey, hknsp⟩ : ∃ c t, f.key = c :: t ∧ isGoSpace c = false := by
    rcases hke : f.key with _ | ⟨c, t⟩
    · exact absurd hke hk0
    · refine ⟨c, t, rfl, ?_⟩
      have := (trim_fixed_both f.key hkt).1
      rw [hke] at this
      exact head_not_space_of_trimLeft c t this
  have hline_ne : f.key ++ ':' :: ' ' :: v0 ≠ [] := by
    rw [hkey]
    simp
  have hhead : (f.key ++ ':' :: ' ' :: v0).head? = some kc := by
    rw [hkey]
    rfl
  have hne1 : kc ≠ ' ' := fun he => absurd (he ▸ hknsp) (by decide)
  have hne2 : kc ≠ '\t' := fun he => absurd (he ▸ hknsp) (by decide)
  have hsplit : splitFirstColon (f.key ++ ':' :: ' ' :: v0) = some (f.key, ' ' :: v0) :=
    splitFirstColon_append f.key (' ' :: v0) hkc
  have hv0L : goTrimLeft v0 = v0 := by
    rcases hv0 : v0 with _ | ⟨c, t⟩
    · rfl
    · apply goTrimLeft_fixed_of_head
      refine Or.inr ⟨c, t, rfl, ?_⟩
      have hfv : f.value = c :: (t ++ (vs.map (fun l => '\n' :: l)).flatten) := by
        rw [hrecon, hv0]
        rfl
      have := (trim_fixed_both f.value hvt).1
      rw [hfv] at this
      exact head_not_space_of_trimLeft _ _ this
  have hv0R : goTrimRight v0 = v0 := by
    have : (splitOnNl f.value).headI = v0 := by
      rw [hsv]
      rfl
    rw [this] at hv0r
    exact hv0r
  have htrimv0 : goTrimSpace (' ' :: v0) = v0 := by
    unfold goTrimSpace
    rw [goTrimLeft_cons_space ' ' v0 (by decide), hv0L, hv0R]
  rw [List.cons_append]
  simp only [parseCtrlLines]
  rw [if_neg hline_ne, hhead, if_neg (by simp [hne1, hne2]), hsplit]
  show parseCtrlLines (vs ++ rest) (goTrimSpace f.key) (goTrimSpace (' ' :: v0))
      (ctrlFlush k v ctrl) = _
  rw [hkt, htrimv0]
  rw [parseCtrlLines_cont vs rest f.key v0 (ctrlFlush k v ctrl)
    (fun l hl => hcont l (by rw [hsv]; exact hl))]
  rw [← hrecon]

/-- Walking all rendered lines of a well-formed field list folds the flush
over the fields, starting from the pending pair. -/
theorem parseCtrlLines_render : ∀ (fs : List ControlField) (k v : Bytes) (ctrl : DebControl),
    (∀ f ∈ fs, WFField f) →
    parseCtrlLines (fs.flatMap (fun f => splitOnNl (bodyOf f))) k v ctrl
      = fs.foldl (fun c f => ctrlFlush f.key f.value c) (ctrlFlush k v ctrl)
  | [], k, v, ctrl, _ => rfl
  | f :: fs, k, v, ctrl, h => by
    rw [List.flatMap_cons]
    rw [parseCtrlLines_field f _ k v ctrl (h f (List.mem_cons_self f fs))]
    rw [parseCtrlLines_render fs _ _ _ (fun g hg => h g (List.mem_cons_of_mem _ hg))]
    rfl

/-- Flushing a non-empty key appends exactly one field, with the value
trimmed. -/
theorem ctrlFlush_Fields (key value : Bytes) (ctrl : DebControl) (hk : key ≠ []) :
    (ctrlFlush key value ctrl).Fields = ctrl.Fields ++ [⟨key, goTrimSpace value⟩] := by
  unfold ctrlFlush
  rw [if_neg hk]
  split_ifs <;> rfl

/-- Folding the flush over trim-fixed fields appends them verbatim. -/
theorem foldl_flush_Fields : ∀ (fs : List ControlField) (init : DebControl),
    (∀ f ∈ fs, f.key ≠ [] ∧ goTrimSpace f.value = f.value) →
    (fs.foldl (fun c f => ctrlFlush f.key f.value c) init).Fields = init.Fields ++ fs
  | [], init, _ => by simp
  | f :: fs, init, h => by
    rw [List.foldl_cons]
    rw [foldl_flush_Fields fs _ (fun g hg => h g (List.mem_cons_of_mem _ hg))]
    rw [ctrlFlush_Fields _ _ _ (h f (List.mem_cons_self f fs)).1]
    rw [(h f (List.mem_cons_self f fs)).2]
    simp

/-- Parsing the rendered control block of a well-formed field list yields the
fold of the flush. -/
theorem parseControlFile_render (fs : List ControlField) (hwf : ∀ f ∈ fs, WFField f) :
    parseControlFile (renderControlFields fs)
      = if (mkParsedCtrl fs).Package = [] then
          .error "Package field not found in control file"
        else .ok (mkParsedCtrl fs) := by
  unfold parseControlFile
  have hcr : ∀ f ∈ fs, '\r' ∉ bodyOf f := by
    intro f hf hm
    obtain ⟨⟨_, _, _, hkr, _⟩, ⟨hvr, _, _, _⟩, _, _⟩ := hwf f hf
    rcases List.mem_append.mp hm with h1 | h1
    · exact hkr h1
    · rcases h1 with _ | ⟨_, h1⟩
      · rcases h1 with _ | ⟨_, h1⟩
        exact hvr h1
  have hlen : ∀ f ∈ fs, ∀ l ∈ splitOnNl (bodyOf f), l.length < maxScanTokenSize := by
    intro f hf l hl
    obtain ⟨⟨hk0, hkc, hkn, hkr, hkt⟩, ⟨hvr, hvt, hv0r, hcont⟩, hlen1, hlen2⟩ := hwf f hf
    rcases hsv : splitOnNl f.value with _ | ⟨v0, vs⟩
    · exact absurd hsv (splitOnNl_ne_nil f.value)
    rw [splitOnNl_bodyOf f hkn v0 vs hsv] at hl
    rcases List.mem_cons.mp hl with rfl | hl2
    · have hlen' : (f.key ++ ':' :: ' ' :: v0).length = f.key.length + 2 + v0.length := by
        simp
        omega
      rw [hlen']
      have hh : (splitOnNl f.value).headI = v0 := by
        rw [hsv]
        rfl
      rw [hh] at hlen1
      exact hlen1
    · have hh : (splitOnNl f.value).tail = vs := by
        rw [hsv]
        rfl
      rw [hh] at hlen2
      exact hlen2 l hl2
  rw [goScanLines_render fs hcr hlen]
  rw [parseCtrlLines_render fs [] [] {} hwf]
  rfl

/-- Every entry with a nonempty path yields a tar member. -/
theorem dataTarMembers_isSome : ∀ l : List DebEntry, (∀ e ∈ l, e.path ≠ []) →
    ∃ ms, dataTarMembers l = some ms
  | [], _ => ⟨[], rfl⟩
  | e :: l, h => by
    obtain ⟨ms, hms⟩ := dataTarMembers_isSome l (fun x hx => h x (List.mem_cons_of_mem _ hx))
    have hep := h e (List.mem_cons_self e l)
    have hm : ∃ m, dataTarMember e = some m := by
      unfold dataTarMember
      rcases hp : e.path with _ | ⟨c, t⟩
      · exact absurd hp hep
      · split_ifs <;> exact ⟨_, rfl⟩
    obtain ⟨m, hm⟩ := hm
    exact ⟨m :: ms, by simp [dataTarMembers, hm, hms]⟩

/-- The `BuildDeb` succeeds on entry lists with nonempty paths, yielding the
three-member archive. -/
theorem buildDeb_some (ctrl : DebControl) (entries : List DebEntry)
    (hpaths : ∀ e ∈ entries, e.path ≠ []) :
    ∃ ms, BuildDeb ctrl entries = some
      ⟨[⟨bs "debian-binary", .raw (bs "2.0\n")⟩,
        ⟨bs "control.tar.gz", buildControlTar ctrl⟩,
        ⟨bs "data.tar.gz", .tgzArc ms⟩]⟩ := by
  have hmem : ∀ e ∈ entries.insertionSort entryPathLe, e.path ≠ [] := by
    intro e he
    exact hpaths e ((List.perm_insertionSort entryPathLe entries).mem_iff.mp he)
  obtain ⟨ms, hms⟩ := dataTarMembers_isSome _ hmem
  exact ⟨ms, by simp [BuildDeb, buildDataTar, hms]⟩

/-- C4 (amended): for control fields that are well-formed for exact
round-tripping (nonempty colon-free trim-fixed keys, CR-free trim-fixed
values whose continuation lines start with space or tab), entry paths
nonempty, and an effective `Package` value that is nonempty, building a
`.deb` and re-parsing it recovers the ordered field list exactly. -/
theorem builddeb_parse_roundtrip (ctrl : DebControl) (entries : List DebEntry)
    (hwf : ∀ f ∈ ctrl.Fields, WFField f)
    (hpaths : ∀ e ∈ entries, e.path ≠ [])
    (hpkg : (mkParsedCtrl ctrl.Fields).Package ≠ []) :
    ∃ d, BuildDeb ctrl entries = some d
      ∧ (ParseDebControl d).map DebControl.Fields = .ok ctrl.Fields := by
  obtain ⟨ms, hbd⟩ := buildDeb_some ctrl entries hpaths
  refine ⟨_, hbd, ?_⟩
  have h1 : ((bs "control.tar").isPrefixOf (goTrimRightSlashSpace (bs "debian-binary")))
      = false := by decide
  have h2 : ((bs "control.tar").isPrefixOf (goTrimRightSlashSpace (bs "control.tar.gz")))
      = true := by decide
  have h3 : goSuffix (goTrimRightSlashSpace (bs "control.tar.gz")) (bs ".gz") = true := by
    decide
  have h4 : goTrimPrefixOf (bs "./control") (bs "./") = bs "control" := by decide
  have hparse : ParseDebControl
      ⟨[⟨bs "debian-binary", .raw (bs "2.0\n")⟩,
        ⟨bs "control.tar.gz", buildControlTar ctrl⟩,
        ⟨bs "data.tar.gz", .tgzArc ms⟩]⟩
      = parseControlFile (renderControlFields ctrl.Fields) := by
    unfold ParseDebControl
    simp only [List.find?, h1, h2]
    unfold parseControlTar buildControlTar
    simp only [h3, if_pos, List.find?, h4]
    simp
  rw [hparse]
  rw [parseControlFile_render ctrl.Fields hwf]
  rw [if_neg hpkg]
  have hfields := foldl_flush_Fields ctrl.Fields {}
    (fun f hf => ⟨(hwf f hf).1.1, (hwf f hf).2.1.2.1⟩)
  simp only [Except.map]
  simpa [mkParsedCtrl] using hfields

/-- C4 counterexample: the round-trip does NOT hold for every control record
with a non-empty `Package` field.  For the field value `"a "` the rebuilt
parse yields `"a"` (the parser trims the value), so the recovered field list
differs from the input. -/
theorem builddeb_roundtrip_counterexample :
    (BuildDeb trailingSpaceCtrl []).map (fun d => (ParseDebControl d).map DebControl.Fields)
        = some (.ok [⟨bs "Package", bs "a"⟩])
      ∧ ¬((BuildDeb trailingSpaceCtrl []).map
            (fun d => (ParseDebControl d).map DebControl.Fields)
          = some (.ok trailingSpaceCtrl.Fields)) := by
  constructor
  · decide
  · decide

/-- Witness for C4's amended round-trip at a concrete record. -/
theorem builddeb_parse_roundtrip_witness :
    ∃ d, BuildDeb wfSampleCtrl [] = some d
      ∧ (ParseDebControl d).map DebControl.Fields = .ok wfSampleCtrl.Fields :=
  builddeb_parse_roundtrip wfSampleCtrl [] (by decide) (by decide) (by decide)
